import Mathlib

/-!
Verification of the code-migration-assistant repository.

This file gives a shallow embedding, in Lean 4, of the parts of the
program that the checked properties talk about:

* `search_and_replace` (src/app/helpers/operations.py): the directory
  scan / pattern replace engine.  The directory walk is modelled as the
  list of files it yields (repository-relative path plus content; a
  `none` content models a file whose read fails and is skipped).  The
  Python `re` primitives are modelled on literal patterns: `countOccs`
  is `re.findall` (number of non-overlapping, leftmost matches) and
  `replaceOccs` is `re.sub` (replace every such match).  Both are
  written with an explicit skip counter so the recursion is structural.
* the per-repository pipeline of src/main.py (flag derivation, change
  evaluation, commit/push/pull-request gating),
* `get_files_count`, `has_tracking_branch` and `needs_push`
  (src/app/helpers/git.py),
* `is_open_pull_requests` (src/app/helpers/scm_providers_operations.py),
* `load_target_repos` (src/app/helpers/operations.py).
-/

namespace CodeMigration

/-- Python `re.findall` restricted to a literal pattern: the number of
non-overlapping occurrences of `p` in the scanned list, found left to
right (after a match the scan resumes past the matched text).  The empty
pattern matches once at every position, including the end of the input.
The `skip` counter carries how many characters of a just-matched
occurrence remain to be consumed, which keeps the recursion structural. -/
def countOccsAux (p : List Char) : List Char → Nat → Nat
  | [], skip => if skip = 0 ∧ p = [] then 1 else 0
  | c :: rest, skip =>
    match skip with
    | k + 1 => countOccsAux p rest k
    | 0 =>
      if p ≠ [] ∧ p.isPrefixOf (c :: rest) then
        1 + countOccsAux p rest (p.length - 1)
      else
        (if p = [] then 1 else 0) + countOccsAux p rest 0

/-- Number of non-overlapping occurrences of `p` in `s` (`re.findall`). -/
def countOccs (p s : List Char) : Nat := countOccsAux p s 0

/-- Python `re.sub` restricted to a literal pattern: replace every
non-overlapping, leftmost occurrence of `p` by `r`.  Same skip-counter
device as `countOccsAux`. -/
def replaceOccsAux (p r : List Char) : List Char → Nat → List Char
  | [], skip => if skip = 0 ∧ p = [] then r else []
  | c :: rest, skip =>
    match skip with
    | k + 1 => replaceOccsAux p r rest k
    | 0 =>
      if p ≠ [] ∧ p.isPrefixOf (c :: rest) then
        r ++ replaceOccsAux p r rest (p.length - 1)
      else
        (if p = [] then r else []) ++ c :: replaceOccsAux p r rest 0

/-- Replace every non-overlapping occurrence of `p` in `s` by `r`. -/
def replaceOccs (p r s : List Char) : List Char := replaceOccsAux p r s 0

/-- One entry of the `patterns` dictionary handed to `search_and_replace`:
a pattern, its replacement, and whether the pattern compiles (`valid =
false` models a pattern whose use raises `re.error`, which the source
catches and skips). -/
structure PatternSpec where
  pat : List Char
  repl : List Char
  valid : Bool
deriving DecidableEq

/-- The per-pattern slot of the result dictionary built by
`search_and_replace`: `result[pattern] = ('count': ..., 'match': ...)`.
The `match` dictionary is modelled as the list of its entries in
insertion order; the walk yields each file once, so keys never repeat. -/
structure PatternResult where
  count : Nat
  matchedFiles : List (String × Nat)
deriving DecidableEq

/-- A file yielded by the `os.walk` traversal of the target directory:
its path relative to the walked directory, and its (decoded) content.
`content = none` models a file whose read raises, which the source logs
and skips. -/
structure SRFile where
  relpath : String
  content : Option (List Char)
deriving DecidableEq

/-- `os.path.join` of a directory name and a relative path. -/
def pathJoin (a b : String) : String := a ++ "/" ++ b

/-- The inner pattern loop of `search_and_replace` for one file: for each
pattern, `re.findall` is run on the ORIGINAL content (recording the file
and adding to the pattern's total when there is at least one match), and
`re.sub` is applied to the working buffer, so the substitutions of the
patterns compose in iteration order.  Patterns that raise `re.error`
(`valid = false`) contribute neither counts nor substitutions.  `res` is
the list of per-pattern result slots, parallel to `specs`. -/
def stepFile (relpath : String) (content : List Char) :
    List PatternSpec → List PatternResult → List Char →
    List PatternResult × List Char
  | [], res, buf => (res, buf)
  | _ :: _, [], buf => ([], buf)
  | sp :: specs, r :: res, buf =>
    if sp.valid then
      let n := countOccs sp.pat content
      let r1 := if 0 < n then
          PatternResult.mk (r.count + n) (r.matchedFiles ++ [(relpath, n)])
        else r
      let out := stepFile relpath content specs res (replaceOccs sp.pat sp.repl buf)
      (r1 :: out.1, out.2)
    else
      let out := stepFile relpath content specs res buf
      (r :: out.1, out.2)

/-- The file loop of `search_and_replace`.  A file whose path, prefixed
with the repository's top-level folder name, is listed in `excluded` is
filtered out of the walk (the source only applies the filter when the
exclusion list is non-empty); a file whose read fails is skipped; for
the rest the pattern loop runs, and when the final working buffer
differs from the original content and `search_only` is off, the file is
overwritten with the buffer.  Returns the result slots and the resulting
on-disk file list (positionally parallel to the input). -/
def runSAR (repoName : String) (specs : List PatternSpec) (excluded : List String)
    (searchOnly : Bool) :
    List SRFile → List PatternResult → List PatternResult × List SRFile
  | [], res => (res, [])
  | f :: fs, res =>
    if 0 < excluded.length ∧ pathJoin repoName f.relpath ∈ excluded then
      let out := runSAR repoName specs excluded searchOnly fs res
      (out.1, f :: out.2)
    else
      match f.content with
      | none =>
        let out := runSAR repoName specs excluded searchOnly fs res
        (out.1, f :: out.2)
      | some c =>
        let st := stepFile f.relpath c specs res c
        let f1 := if st.2 ≠ c ∧ searchOnly = false then
            SRFile.mk f.relpath (some st.2)
          else f
        let out := runSAR repoName specs excluded searchOnly fs st.1
        (out.1, f1 :: out.2)

/-- `search_and_replace(directory, patterns, excluded_files, search_only)`
from src/app/helpers/operations.py, over the files yielded by the walk
of `directory` (whose basename is `repoName`).  Returns the result
dictionary (one slot per pattern, in dictionary order) together with the
on-disk state of the walked files after the call. -/
def search_and_replace (repoName : String) (files : List SRFile)
    (specs : List PatternSpec) (excluded : List String) (searchOnly : Bool) :
    List PatternResult × List SRFile :=
  runSAR repoName specs excluded searchOnly files
    (specs.map (fun _ => PatternResult.mk 0 []))

/-- The `total == sum(per-file counts)` shape of one result slot. -/
def resultConsistent (r : PatternResult) : Prop :=
  r.count = (r.matchedFiles.map Prod.snd).sum

/-- The working buffer a file's content ends up as after the pattern
loop: the substitutions of the valid patterns composed in iteration
order. -/
def finalBuffer (specs : List PatternSpec) (c : List Char) : List Char :=
  specs.foldl (fun b sp => if sp.valid then replaceOccs sp.pat sp.repl b else b) c

/-- Modelled from the spec's words for the write-back step: "If
`dry_run` is false and the final content differs from the original, the
file is overwritten; otherwise it is left untouched" — excluded and
unreadable files are left untouched because they never reach the
pattern loop. -/
def overwrittenFile (repoName : String) (specs : List PatternSpec)
    (excluded : List String) (f : SRFile) : SRFile :=
  if 0 < excluded.length ∧ pathJoin repoName f.relpath ∈ excluded then f
  else
    match f.content with
    | none => f
    | some c =>
      if finalBuffer specs c ≠ c then SRFile.mk f.relpath (some (finalBuffer specs c))
      else f

/-- The on-disk state of one walked file after `search_and_replace`:
untouched on a dry run, otherwise as described by `overwrittenFile`. -/
def expectedFileAfter (repoName : String) (specs : List PatternSpec)
    (excluded : List String) (searchOnly : Bool) (f : SRFile) : SRFile :=
  if searchOnly then f else overwrittenFile repoName specs excluded f

/-- A file path is reported in a MatchReport when some pattern's slot
records a positive match count for it. -/
def reportedIn (res : List PatternResult) (p : String) : Prop :=
  ∃ r ∈ res, ∃ q ∈ r.matchedFiles, q.1 = p ∧ 0 < q.2

instance (res : List PatternResult) (p : String) : Decidable (reportedIn res p) := by
  unfold reportedIn
  infer_instance

/-- The application mode, validated at the top of src/main.py. -/
inductive Mode
  | dev
  | prod
deriving DecidableEq

/-- The six per-repository pipeline flags of src/main.py. -/
structure Flags where
  check_branch : Bool
  setup_identity : Bool
  search_only : Bool
  commit : Bool
  push : Bool
  create_pull_request : Bool
deriving DecidableEq

/-- `AppConfig.APP_MODES[mode]['flags']` from src/app/config.py. -/
def flagsOfMode : Mode → Flags
  | Mode.dev => Flags.mk false false true false false false
  | Mode.prod => Flags.mk true true false true true true

/-- The observable behaviour, for one repository, of every external call
the per-repository loop body of src/main.py can make: each field is the
value the corresponding call would return.  The loop body never inspects
anything else about the repository.  `searchResult` is the value of
`search_and_replace` (`none` models its error return), and `isLast`
is the `repo != TARGET_REPOS[-1]` test that selects between skipping to
the next repository and exiting the process. -/
structure RepoEnv where
  identitySetupOk : Bool
  branchCheckOk : Bool
  searchResult : Option (List PatternResult)
  untrackedCount : Nat
  modifiedCount : Nat
  stagedCount : Nat
  hasTracking : Bool
  pushNeeded : Bool
  prConfigured : Bool
  prQueryOpen : Bool
  prQueryErr : Bool
  pushOk : Bool
  prRaiseOk : Bool
  isLast : Bool
deriving DecidableEq

/-- `get_files_count` from src/app/helpers/git.py: dispatches on the
`file_status` string; an unrecognised status raises `ValueError`,
modelled as `none`.  The pipeline only calls it with the literal
statuses "modified" and "staged", so those calls always return a
value. -/
def get_files_count (env : RepoEnv) (file_status : String) : Option Nat :=
  if file_status = "staged" then some env.stagedCount
  else if file_status = "modified" then some env.modifiedCount
  else if file_status = "untracked" then some env.untrackedCount
  else if file_status = "unstaged" then some (env.untrackedCount + env.modifiedCount)
  else none

/-- How the loop body of src/main.py leaves one repository: falling
through to the end, `continue`-ing to the next repository, or exiting
the process with a status code. -/
inductive RepoOutcome
  | completed
  | nextRepo
  | exited (code : Nat)
deriving DecidableEq

/-- The recurring `if repo != TARGET_REPOS[-1]: continue` /
`sys.exit(code)` pattern of src/main.py. -/
def skipOrExit (env : RepoEnv) (code : Nat) : RepoOutcome :=
  if env.isLast then RepoOutcome.exited code else RepoOutcome.nextRepo

/-- What one iteration of the repository loop did: the flag values at
the end of the iteration, how the iteration ended, and which of the
three mutating actions (commit, push, raise pull request) were
attempted. -/
structure RepoResult where
  flags : Flags
  outcome : RepoOutcome
  didCommit : Bool
  didPush : Bool
  didRaisePR : Bool
deriving DecidableEq

/-- The ChangeEvaluation block of src/main.py (the `if MODE != 'dev':`
block): with zero total matches it counts leftover modified and staged
files (untracked files are not consulted); when both are zero it
disables `commit`, then checks the tracking branch, `needs_push`, and —
when a pull request is configured — queries for an open pull request,
disabling `push` and `create_pull_request` as it finds each action
unnecessary.  Returns the narrowed flags and, when the block leaves the
loop body early, the outcome it leaves with. -/
def changeEvaluation (mode : Mode) (env : RepoEnv) (f0 : Flags) (total : Nat) :
    Flags × Option RepoOutcome :=
  if mode = Mode.dev then (f0, none)
  else if total = 0 then
    let modifiedFilesCount := (get_files_count env "modified").getD 0
    let stagedFilesCount := (get_files_count env "staged").getD 0
    if 0 < modifiedFilesCount + stagedFilesCount then (f0, none)
    else
      let f1 := { f0 with commit := false }
      if env.hasTracking then
        if env.pushNeeded then (f1, none)
        else
          let f2 := { f1 with push := false }
          if env.prConfigured then
            if env.prQueryErr then (f2, some (skipOrExit env 6))
            else if env.prQueryOpen then
              ({ f2 with create_pull_request := false }, some RepoOutcome.nextRepo)
            else (f2, none)
          else (f2, some RepoOutcome.nextRepo)
      else (f1, some RepoOutcome.nextRepo)
  else (f0, none)

/-- The whole per-repository loop body of src/main.py: flags derived
from the mode, identity setup, branch checkout, search/replace (a falsy
result — `None` or an empty dictionary — exits with code 10), change
evaluation, then the commit, push and pull-request actions gated by the
remaining flags.  The boolean result of `commit_changes` is ignored by
the source, so a commit failure cannot change the outcome. -/
def processRepo (mode : Mode) (env : RepoEnv) : RepoResult :=
  let f0 := flagsOfMode mode
  if f0.setup_identity ∧ env.identitySetupOk = false then
    RepoResult.mk f0 (skipOrExit env 2) false false false
  else if f0.check_branch ∧ env.branchCheckOk = false then
    RepoResult.mk f0 (skipOrExit env 3) false false false
  else
    match env.searchResult with
    | none => RepoResult.mk f0 (skipOrExit env 10) false false false
    | some res =>
      if res.isEmpty then RepoResult.mk f0 (skipOrExit env 10) false false false
      else
        let total := (res.map (fun r => r.count)).sum
        let ev := changeEvaluation mode env f0 total
        match ev.2 with
        | some oc => RepoResult.mk ev.1 oc false false false
        | none =>
          let f := ev.1
          if f.push ∧ env.pushOk = false then
            RepoResult.mk f (skipOrExit env 4) f.commit true false
          else if f.create_pull_request then
            if env.prConfigured = false then
              RepoResult.mk f RepoOutcome.nextRepo f.commit f.push false
            else if env.prRaiseOk then
              RepoResult.mk f RepoOutcome.completed f.commit f.push true
            else RepoResult.mk f (skipOrExit env 5) f.commit f.push true
          else RepoResult.mk f RepoOutcome.completed f.commit f.push false

/-- A local branch head as `needs_push` sees it: its name and the name
of its tracking branch, when it has one (`branch.tracking_branch()`). -/
structure GitHead where
  hname : String
  tracking : Option String
deriving DecidableEq

/-- The slice of a GitPython `Repo` that `has_tracking_branch` and
`needs_push` consult: the local heads, the active branch, and the
revision walk `repo.iter_commits("a..b")` — the commits reachable from
`b` but not from `a` (a left-exclusive range), abstracted as a function
to commit lists. -/
structure GitRepo where
  heads : List GitHead
  active : GitHead
  rangeCommits : String → String → List Nat

/-- The branch selection at the top of `needs_push`:
`repo.heads[branch_name] if branch_name else repo.active_branch`;
`none` models the `IndexError` GitPython raises when no local head has
that name. -/
def lookupBranch (repo : GitRepo) (branch_name : Option String) : Option GitHead :=
  match branch_name with
  | some n => repo.heads.find? (fun h => h.hname == n)
  | none => some repo.active

/-- `has_tracking_branch` from src/app/helpers/git.py. -/
def has_tracking_branch (branch : GitHead) : Bool :=
  branch.tracking.isSome

/-- `needs_push` from src/app/helpers/git.py: with a tracking branch it
returns whether `any(repo.iter_commits("tracking..branch"))`; without
one it returns `False`. -/
def needs_push (repo : GitRepo) (branch_name : Option String) : Option Bool :=
  match lookupBranch repo branch_name with
  | none => none
  | some branch =>
    match branch.tracking with
    | some tracking => some (!(repo.rangeCommits tracking branch.hname).isEmpty)
    | none => some false

/-- ASCII case-folding of one character, as Python `str.lower` behaves
on the ASCII provider-type and repository-type strings the source
normalises. -/
def pyLowerChar (c : Char) : Char :=
  if 'A' ≤ c ∧ c ≤ 'Z' then Char.ofNat (c.toNat + 32) else c

/-- Python `str.lower` over the decoded character list. -/
def pyLower (s : List Char) : List Char := s.map pyLowerChar

/-- The whitespace characters Python `str.strip` removes. -/
def pyIsSpace (c : Char) : Bool :=
  (c == ' ') || (c == '\t') || (c == '\n') || (c == '\r') || (c == '\x0b') || (c == '\x0c')

/-- Python `str.strip`: drop leading and trailing whitespace. -/
def pyStrip (s : List Char) : List Char :=
  ((s.dropWhile pyIsSpace).reverse.dropWhile pyIsSpace).reverse

/-- What `is_open_pull_requests` returns: either the documented
`(is_open, error)` pair, or — on one branch of the source — a bare
boolean that is not a tuple at all. -/
inductive PRQueryReturn
  | pair (isOpen : Bool) (err : Bool)
  | bare (b : Bool)
deriving DecidableEq

/-- The inputs `is_open_pull_requests` reacts to: the SCM provider type
string attached to the repository, whether each credential environment
variable is set, whether the provider fields and the per-provider
pull-request payload (and its target-ref key) are present in the
configuration (a missing key raises `KeyError`, which the source
catches), and the provider call's result (`none` models the provider
helper returning `None` after an API failure). -/
structure PRQueryEnv where
  providerType : String
  azurePatSet : Bool
  githubTokenSet : Bool
  hasProviderFields : Bool
  hasPayloadForProvider : Bool
  hasTargetRefKey : Bool
  apiResult : Option Nat
deriving DecidableEq

/-- `is_open_pull_requests` from
src/app/helpers/scm_providers_operations.py.  Note the GitHub
missing-token branch: the source has `return False` there — a bare
boolean instead of the `tuple[bool, bool]` its signature and docstring
declare — modelled as `PRQueryReturn.bare false`.  The Azure DevOps
missing-PAT branch returns `False, False`, i.e. it does not set the
error component. -/
def is_open_pull_requests (env : PRQueryEnv) : PRQueryReturn :=
  let t := pyStrip (pyLower env.providerType.data)
  if t = "azuredevops".data then
    if env.azurePatSet = false then PRQueryReturn.pair false false
    else if env.hasProviderFields = false then PRQueryReturn.pair false true
    else if env.hasPayloadForProvider = false then PRQueryReturn.pair false true
    else if env.hasTargetRefKey = false then PRQueryReturn.pair false true
    else
      match env.apiResult with
      | some n => PRQueryReturn.pair (0 < n) false
      | none => PRQueryReturn.pair false true
  else if t = "github".data then
    if env.githubTokenSet = false then PRQueryReturn.bare false
    else if env.hasProviderFields = false then PRQueryReturn.pair false true
    else if env.hasPayloadForProvider = false then PRQueryReturn.pair false true
    else if env.hasTargetRefKey = false then PRQueryReturn.pair false true
    else
      match env.apiResult with
      | some n => PRQueryReturn.pair (0 < n) false
      | none => PRQueryReturn.pair false true
  else PRQueryReturn.pair false true

/-- How materialising one configured repository behaves: `Repo(path)` for
a local entry or `Repo.clone_from` for a remote one succeeds, raises
`GitCommandError` (with its status and whether its stderr contains
'already exists'), raises `NoSuchPathError`, or raises some other
exception. -/
inductive MatOutcome
  | ok
  | gitErr (status : Int) (alreadyExists : Bool)
  | noSuchPath
  | otherExc
deriving DecidableEq

/-- The `scmProvider` sub-dictionary of one configured repository entry;
a `none` field models a missing key, whose access raises `KeyError`. -/
structure ScmCfg where
  ptype : Option String
  baseUrl : Option String
  project : Option String
  domain : Option String
  ownerOrOrg : Option String
deriving DecidableEq

/-- One entry of the `targetRepos` configuration list together with the
behaviour of the git operations on it: the `type`, `name` and
`scmProvider` keys (`none` = missing), the materialisation outcome, and
whether the `Repo(path)` call inside the clone-'already exists' recovery
handler succeeds. -/
structure TargetEntry where
  rtype : Option String
  name : Option String
  scm : Option ScmCfg
  mat : MatOutcome
  handlerOpenOk : Bool
deriving DecidableEq

/-- The provider descriptor `load_target_repos` attaches to a loaded
repository object. -/
inductive ScmAttached
  | azure (baseUrl project : String)
  | github (domain ownerOrOrg : String)
deriving DecidableEq

/-- A loaded repository object: its configured name and the attached
provider descriptor, when a recognised one was configured. -/
structure RepoObj where
  rname : String
  scmProv : Option ScmAttached
deriving DecidableEq

/-- The exceptions that can escape `load_target_repos`: a `KeyError` or
a repository-open failure raised inside the clone-'already exists'
recovery `except` block (an exception raised in an `except` handler
propagates out of the function). -/
inductive PyExc
  | keyError
  | openError
deriving DecidableEq

deriving instance DecidableEq for Except

/-- The provider-attachment block of `load_target_repos` (duplicated in
the source between the try block and its recovery handler): normalise
the scmProvider type with `.strip().lower().replace(' ', '')` and attach
the azure / github fields, raising `KeyError` when a needed key is
missing; an unrecognised provider type attaches nothing, and the
repository object is still used. -/
def attachScm (cfg : ScmCfg) (obj : RepoObj) : Except PyExc RepoObj :=
  match cfg.ptype with
  | none => Except.error PyExc.keyError
  | some t0 =>
    let t := (pyLower (pyStrip t0.data)).filter (fun c => !(c == ' '))
    if t = "azuredevops".data then
      match cfg.baseUrl, cfg.project with
      | some b, some pj =>
        Except.ok (RepoObj.mk obj.rname (some (ScmAttached.azure b pj)))
      | _, _ => Except.error PyExc.keyError
    else if t = "github".data then
      match cfg.domain, cfg.ownerOrOrg with
      | some dm, some oo =>
        Except.ok (RepoObj.mk obj.rname
          (some (ScmAttached.github dm (String.mk (pyStrip oo.data)))))
      | _, _ => Except.error PyExc.keyError
    else Except.ok obj

/-- One iteration of the `for repo in repos:` loop of
`load_target_repos`, given the current value of the loop-local
`repo_obj` variable (which Python keeps across iterations, so an entry
whose `type` is present but unrecognised reuses — and appends again —
the previously materialised object).  Returns the element appended to
the result (if any) and the new value of `repo_obj`, or the exception
that escapes.  Exceptions raised in the try block are caught and the
entry is skipped; exceptions raised inside the clone-'already exists'
recovery handler propagate.  Aliasing between `repo_obj` and an already
appended element (the same Python object) is not modelled; no theorem
below exercises an input where it matters. -/
def loadOne (last : Option RepoObj) (e : TargetEntry) :
    Except PyExc (Option RepoObj × Option RepoObj) :=
  match e.rtype, e.name, e.scm with
  | none, _, _ => Except.ok (none, last)
  | _, none, _ => Except.ok (none, last)
  | _, _, none => Except.ok (none, last)
  | some t0, some nm, some cfg =>
    let t := pyLower (pyStrip t0.data)
    if t = "local".data ∨ t = "remote".data then
      match e.mat with
      | MatOutcome.ok =>
        let obj := RepoObj.mk nm none
        match attachScm cfg obj with
        | Except.ok obj1 => Except.ok (some obj1, some obj1)
        | Except.error _ => Except.ok (none, some obj)
      | MatOutcome.gitErr status alreadyExists =>
        if status = 128 ∧ alreadyExists then
          if e.handlerOpenOk then
            match attachScm cfg (RepoObj.mk nm none) with
            | Except.ok obj1 => Except.ok (some obj1, some obj1)
            | Except.error exc => Except.error exc
          else Except.error PyExc.openError
        else Except.ok (none, last)
      | MatOutcome.noSuchPath => Except.ok (none, last)
      | MatOutcome.otherExc => Except.ok (none, last)
    else
      match last with
      | none => Except.ok (none, none)
      | some lr =>
        match attachScm cfg lr with
        | Except.ok lr1 => Except.ok (some lr1, some lr1)
        | Except.error _ => Except.ok (none, some lr)

/-- The loop of `load_target_repos`, threading the `repo_obj` loop
variable and stopping at the first escaping exception. -/
def loadRepos : List TargetEntry → Option RepoObj → Except PyExc (List RepoObj)
  | [], _ => Except.ok []
  | e :: es, last =>
    match loadOne last e with
    | Except.error exc => Except.error exc
    | Except.ok (contrib, last1) =>
      match loadRepos es last1 with
      | Except.error exc => Except.error exc
      | Except.ok rest => Except.ok (contrib.toList ++ rest)

/-- `load_target_repos` from src/app/helpers/operations.py. -/
def load_target_repos (repos : List TargetEntry) : Except PyExc (List RepoObj) :=
  loadRepos repos none

/-- Whether the provider-attachment block succeeds (or benignly attaches
nothing) rather than raising `KeyError`. -/
def scmAttachOk (cfg : ScmCfg) : Bool :=
  match cfg.ptype with
  | none => false
  | some t0 =>
    let t := (pyLower (pyStrip t0.data)).filter (fun c => !(c == ' '))
    if t = "azuredevops".data then cfg.baseUrl.isSome && cfg.project.isSome
    else if t = "github".data then cfg.domain.isSome && cfg.ownerOrOrg.isSome
    else true

/-- An entry that keeps `load_target_repos` away from its fragile paths:
its `type`, when present, normalises to `local` or `remote`, and if its
clone fails with an 'already exists' git error then the recovery
handler's repository open and provider attachment succeed. -/
def entrySafe (e : TargetEntry) : Bool :=
  (match e.rtype with
   | none => true
   | some t0 => (pyLower (pyStrip t0.data) == "local".data)
       || (pyLower (pyStrip t0.data) == "remote".data)) &&
  (match e.mat with
   | MatOutcome.gitErr status alreadyExists =>
     !(status == 128 && alreadyExists) ||
       (e.handlerOpenOk && (match e.scm with
        | none => true
        | some cfg => scmAttachOk cfg))
   | _ => true)

/-- The element one configuration entry contributes to the returned
repository list (`none` when the entry is skipped). -/
def expectedRepo (e : TargetEntry) : Option RepoObj :=
  match e.rtype, e.name, e.scm with
  | some t0, some nm, some cfg =>
    let t := pyLower (pyStrip t0.data)
    if t = "local".data ∨ t = "remote".data then
      match e.mat with
      | MatOutcome.ok => (attachScm cfg (RepoObj.mk nm none)).toOption
      | MatOutcome.gitErr status alreadyExists =>
        if status = 128 ∧ alreadyExists then
          if e.handlerOpenOk then (attachScm cfg (RepoObj.mk nm none)).toOption
          else none
        else none
      | MatOutcome.noSuchPath => none
      | MatOutcome.otherExc => none
    else none
  | _, _, _ => none

/-- A repository environment with zero scan matches, one untracked file
and no modified or staged files. -/
def envC1 : RepoEnv :=
  RepoEnv.mk true true (some [PatternResult.mk 0 []]) 1 0 0
    false false false false false true true false

/-- A repository environment with zero scan matches, a clean tree, an
up-to-date tracking branch, a configured pull request and an open pull
request for the configured refs. -/
def envC2 : RepoEnv :=
  RepoEnv.mk true true (some [PatternResult.mk 0 []]) 0 0 0
    true false true true false true true false

/-- A GitHub-provider repository queried with no `GITHUB_TOKEN` set. -/
def envC6 : PRQueryEnv :=
  PRQueryEnv.mk "github" true false true true true (some 0)

/-- A repository whose active branch `feature` tracks `origin/feature`
and is one commit ahead of it. -/
def repoC5 : GitRepo :=
  GitRepo.mk [GitHead.mk "feature" (some "origin/feature")]
    (GitHead.mk "feature" (some "origin/feature"))
    (fun a b => if a = "origin/feature" ∧ b = "feature" then [1] else [])

/-- A remote entry whose clone hits the 'already exists' git error and
whose `scmProvider` dictionary lacks the `type` key, so the recovery
handler raises `KeyError`. -/
def entryC10 : TargetEntry :=
  TargetEntry.mk (some "remote") (some "repo-a")
    (some (ScmCfg.mk none none none none none)) (MatOutcome.gitErr 128 true) true

/-- Two well-behaved entries: a local GitHub-provider repository that
materialises, and one whose path does not exist. -/
def entriesC10w : List TargetEntry :=
  [TargetEntry.mk (some "local") (some "r1")
     (some (ScmCfg.mk (some "github") none none (some "github.com") (some "me")))
     MatOutcome.ok true,
   TargetEntry.mk (some "local") (some "r2")
     (some (ScmCfg.mk (some "github") none none (some "github.com") (some "me")))
     MatOutcome.noSuchPath true]

theorem stepFile_consistent (relpath : String) (content : List Char) :
    ∀ (specs : List PatternSpec) (res : List PatternResult) (buf : List Char),
      (∀ r ∈ res, resultConsistent r) →
      ∀ r1 ∈ (stepFile relpath content specs res buf).1, resultConsistent r1 := by
  intro specs
  induction specs with
  | nil =>
    intro res buf h r1 hr1
    simp only [stepFile] at hr1
    exact h r1 hr1
  | cons sp specs ih =>
    intro res buf h r1 hr1
    cases res with
    | nil => simp [stepFile] at hr1
    | cons r res2 =>
      by_cases hv : sp.valid
      · simp only [stepFile, hv, if_true] at hr1
        rcases List.mem_cons.mp hr1 with h1 | h1
        · subst h1
          by_cases hn : 0 < countOccs sp.pat content
          · simp only [hn, if_true]
            have hr := h r (List.mem_cons_self r res2)
            simp only [resultConsistent] at hr ⊢
            simp [hr, List.map_append, List.sum_append]
          · simp only [hn, if_false]
            exact h r (List.mem_cons_self r res2)
        · exact ih res2 (replaceOccs sp.pat sp.repl buf)
            (fun x hx => h x (List.mem_cons_of_mem r hx)) r1 h1
      · simp only [stepFile, hv, if_false] at hr1
        rcases List.mem_cons.mp hr1 with h1 | h1
        · subst h1; exact h r1 (List.mem_cons_self r1 res2)
        · exact ih res2 buf (fun x hx => h x (List.mem_cons_of_mem r hx)) r1 h1

theorem runSAR_consistent (repoName : String) (specs : List PatternSpec)
    (excluded : List String) (searchOnly : Bool) :
    ∀ (files : List SRFile) (res : List PatternResult),
      (∀ r ∈ res, resultConsistent r) →
      ∀ r1 ∈ (runSAR repoName specs excluded searchOnly files res).1,
        resultConsistent r1 := by
  intro files
  induction files with
  | nil =>
    intro res h r1 hr1
    simp only [runSAR] at hr1
    exact h r1 hr1
  | cons f fs ih =>
    intro res h r1 hr1
    by_cases hex : 0 < excluded.length ∧ pathJoin repoName f.relpath ∈ excluded
    · simp only [runSAR, hex, if_true] at hr1
      exact ih res h r1 hr1
    · cases hc : f.content with
      | none =>
        simp only [runSAR, hex, if_false, hc] at hr1
        exact ih res h r1 hr1
      | some c =>
        simp only [runSAR, hex, if_false, hc] at hr1
        exact ih _ (stepFile_consistent f.relpath c specs res c h) r1 hr1

theorem replaceOccsAux_eq_of_no_match (p r : List Char) :
    ∀ s, countOccsAux p s 0 = 0 → replaceOccsAux p r s 0 = s := by
  intro s
  induction s with
  | nil =>
    intro h
    simp only [countOccsAux] at h
    simp only [replaceOccsAux]
    split
    · rename_i hcond
      simp [hcond] at h
    · rfl
  | cons c rest ih =>
    intro h
    by_cases hp : p = []
    · simp [countOccsAux, hp] at h
    · by_cases hpre : p.isPrefixOf (c :: rest)
      · simp [countOccsAux, hp, hpre] at h
      · have hrest : countOccsAux p rest 0 = 0 := by
          simpa [countOccsAux, hp, hpre] using h
        simp [replaceOccsAux, hp, hpre, ih hrest]

theorem replaceOccs_eq_of_no_match (p r s : List Char)
    (h : countOccs p s = 0) : replaceOccs p r s = s :=
  replaceOccsAux_eq_of_no_match p r s h

theorem finalBuffer_eq_of_no_match (c : List Char) :
    ∀ specs : List PatternSpec,
      (∀ sp ∈ specs, sp.valid = true → countOccs sp.pat c = 0) →
      finalBuffer specs c = c := by
  intro specs
  induction specs with
  | nil => intro _; rfl
  | cons sp specs ih =>
    intro h
    have hhead : (if sp.valid then replaceOccs sp.pat sp.repl c else c) = c := by
      by_cases hv : sp.valid
      · simp [hv,
          replaceOccs_eq_of_no_match sp.pat sp.repl c
            (h sp (List.mem_cons_self sp specs) hv)]
      · simp [hv]
    simp only [finalBuffer, List.foldl_cons, hhead]
    exact ih fun x hx => h x (List.mem_cons_of_mem sp hx)

theorem exists_match_of_finalBuffer_ne (c : List Char) (specs : List PatternSpec)
    (h : finalBuffer specs c ≠ c) :
    ∃ sp ∈ specs, sp.valid = true ∧ 0 < countOccs sp.pat c := by
  by_contra hall
  push_neg at hall
  refine h (finalBuffer_eq_of_no_match c specs ?_)
  intro sp hsp hv
  have := hall sp hsp hv
  omega

theorem stepFile_length (relpath : String) (content : List Char) :
    ∀ (specs : List PatternSpec) (res : List PatternResult) (buf : List Char),
      specs.length ≤ res.length →
      (stepFile relpath content specs res buf).1.length = res.length := by
  intro specs
  induction specs with
  | nil => intro res buf _; simp [stepFile]
  | cons sp specs ih =>
    intro res buf hlen
    cases res with
    | nil => simp at hlen
    | cons r res2 =>
      have hlen2 : specs.length ≤ res2.length := by
        simpa using Nat.le_of_succ_le_succ hlen
      by_cases hv : sp.valid
      · simp [stepFile, hv, ih res2 _ hlen2]
      · simp [stepFile, hv, ih res2 buf hlen2]

theorem stepFile_buffer (relpath : String) (content : List Char) :
    ∀ (specs : List PatternSpec) (res : List PatternResult) (buf : List Char),
      specs.length ≤ res.length →
      (stepFile relpath content specs res buf).2 =
        specs.foldl (fun b sp => if sp.valid then replaceOccs sp.pat sp.repl b else b) buf := by
  intro specs
  induction specs with
  | nil => intro res buf _; simp [stepFile]
  | cons sp specs ih =>
    intro res buf hlen
    cases res with
    | nil => simp at hlen
    | cons r res2 =>
      have hlen2 : specs.length ≤ res2.length := by
        simpa using Nat.le_of_succ_le_succ hlen
      by_cases hv : sp.valid
      · simp [stepFile, hv, ih res2 _ hlen2]
      · simp [stepFile, hv, ih res2 buf hlen2]

theorem runSAR_disk (repoName : String) (specs : List PatternSpec)
    (excluded : List String) (searchOnly : Bool) :
    ∀ (files : List SRFile) (res : List PatternResult),
      specs.length ≤ res.length →
      (runSAR repoName specs excluded searchOnly files res).2 =
        files.map (expectedFileAfter repoName specs excluded searchOnly) := by
  intro files
  induction files with
  | nil => intro res _; simp [runSAR]
  | cons f fs ih =>
    intro res hlen
    by_cases hex : 0 < excluded.length ∧ pathJoin repoName f.relpath ∈ excluded
    · simp only [runSAR, hex, if_true, List.map_cons]
      rw [ih res hlen]
      simp [expectedFileAfter, overwrittenFile, hex]
    · cases hc : f.content with
      | none =>
        simp only [runSAR, hex, if_false, hc, List.map_cons]
        rw [ih res hlen]
        simp [expectedFileAfter, overwrittenFile, hex, hc]
      | some c =>
        simp only [runSAR, hex, if_false, hc, List.map_cons]
        have hbuf : (stepFile f.relpath c specs res c).2 = finalBuffer specs c :=
          stepFile_buffer f.relpath c specs res c hlen
        have hlen2 : specs.length ≤ ((stepFile f.relpath c specs res c).1).length := by
          rw [stepFile_length f.relpath c specs res c hlen]; exact hlen
        rw [ih _ hlen2]
        congr 1
        rw [hbuf]
        cases searchOnly with
        | true => simp [expectedFileAfter]
        | false =>
          by_cases hne : finalBuffer specs c ≠ c
          · simp [expectedFileAfter, overwrittenFile, hex, hc, hne]
          · simp only [ne_eq, not_not] at hne
            simp [expectedFileAfter, overwrittenFile, hex, hc, hne]

/-- C3: for every directory, pattern set and exclusion list, each
pattern's slot in the MatchReport returned by `search_and_replace` has a
total count equal to the sum of its recorded per-file match counts. -/
theorem sar_total_eq_sum_per_file (repoName : String) (files : List SRFile)
    (specs : List PatternSpec) (excluded : List String) (searchOnly : Bool) :
    ∀ r ∈ (search_and_replace repoName files specs excluded searchOnly).1,
      r.count = (r.matchedFiles.map Prod.snd).sum := by
  intro r hr
  refine runSAR_consistent repoName specs excluded searchOnly files _ ?_ r hr
  intro r0 hr0
  rcases List.mem_map.mp hr0 with ⟨sp, _, h⟩
  simp [resultConsistent, ← h]

/-- Witness for C3 at a concrete input: one file containing two matches
of a single pattern. -/
theorem sar_total_eq_sum_per_file_witness :
    (PatternResult.mk 2 [("f", 2)]).count
      = ((PatternResult.mk 2 [("f", 2)]).matchedFiles.map Prod.snd).sum :=
  sar_total_eq_sum_per_file "r" [SRFile.mk "f" (some ['a', 'a'])]
    [PatternSpec.mk ['a'] ['b'] true] [] true
    (PatternResult.mk 2 [("f", 2)]) (by decide)

/-- C8: with `search_only` (dry run) set, `search_and_replace` writes no
file, whatever the matches; with it unset, exactly the files whose final
working buffer differs from their original content are overwritten with
that buffer, and every other file is left byte-for-byte unchanged. -/
theorem sar_write_frame (repoName : String) (files : List SRFile)
    (specs : List PatternSpec) (excluded : List String) (searchOnly : Bool) :
    (searchOnly = true →
      (search_and_replace repoName files specs excluded searchOnly).2 = files) ∧
    (search_and_replace repoName files specs excluded searchOnly).2 =
      files.map (expectedFileAfter repoName specs excluded searchOnly) := by
  have h := runSAR_disk repoName specs excluded searchOnly files
    (specs.map (fun _ => PatternResult.mk 0 [])) (by simp)
  refine ⟨fun hso => ?_, h⟩
  subst hso
  calc (search_and_replace repoName files specs excluded true).2
      = files.map (expectedFileAfter repoName specs excluded true) := h
    _ = files := by
      rw [show expectedFileAfter repoName specs excluded true = id from
        funext fun f => by simp [expectedFileAfter]]
      exact List.map_id files

/-- Witness for C8: a dry run over a matching file leaves the disk
untouched. -/
theorem sar_write_frame_witness :
    (search_and_replace "r" [SRFile.mk "f" (some ['a'])]
      [PatternSpec.mk ['a'] ['b'] true] [] true).2 = [SRFile.mk "f" (some ['a'])] :=
  (sar_write_frame "r" [SRFile.mk "f" (some ['a'])]
    [PatternSpec.mk ['a'] ['b'] true] [] true).1 rfl

theorem stepFile_reported_mono (relpath : String) (content : List Char) :
    ∀ (specs : List PatternSpec) (res : List PatternResult) (buf : List Char)
      (p : String), reportedIn res p →
      reportedIn (stepFile relpath content specs res buf).1 p := by
  intro specs
  induction specs with
  | nil =>
    intro res buf p h
    simpa [stepFile] using h
  | cons sp specs ih =>
    intro res buf p h
    rcases h with ⟨r0, hr0, q, hq, hqp⟩
    cases res with
    | nil => simp at hr0
    | cons r res2 =>
      rcases List.mem_cons.mp hr0 with h1 | h1
      · subst h1
        by_cases hv : sp.valid
        · by_cases hn : 0 < countOccs sp.pat content
          · simp [stepFile, hv, hn]
            exact ⟨_, List.mem_cons_self _ _, q, List.mem_append_left _ hq, hqp⟩
          · simp [stepFile, hv, hn]
            exact ⟨_, List.mem_cons_self _ _, q, hq, hqp⟩
        · simp [stepFile, hv]
          exact ⟨_, List.mem_cons_self _ _, q, hq, hqp⟩
      · by_cases hv : sp.valid
        · have := ih res2 (replaceOccs sp.pat sp.repl buf) p ⟨r0, h1, q, hq, hqp⟩
          rcases this with ⟨r2, hr2, q2, hq2, hqp2⟩
          exact ⟨r2, by simp [stepFile, hv, List.mem_cons, hr2], q2, hq2, hqp2⟩
        · have := ih res2 buf p ⟨r0, h1, q, hq, hqp⟩
          rcases this with ⟨r2, hr2, q2, hq2, hqp2⟩
          exact ⟨r2, by simp [stepFile, hv, List.mem_cons, hr2], q2, hq2, hqp2⟩

theorem stepFile_records (relpath : String) (content : List Char) :
    ∀ (specs : List PatternSpec) (res : List PatternResult) (buf : List Char),
      specs.length ≤ res.length →
      (∃ sp ∈ specs, sp.valid = true ∧ 0 < countOccs sp.pat content) →
      reportedIn (stepFile relpath content specs res buf).1 relpath := by
  intro specs
  induction specs with
  | nil =>
    intro res buf _ h
    rcases h with ⟨sp, hsp, _⟩
    simp at hsp
  | cons sp specs ih =>
    intro res buf hlen h
    cases res with
    | nil => simp at hlen
    | cons r res2 =>
      have hlen2 : specs.length ≤ res2.length := by
        simpa using Nat.le_of_succ_le_succ hlen
      rcases h with ⟨sp0, hsp0, hv0, hn0⟩
      rcases List.mem_cons.mp hsp0 with h1 | h1
      · subst h1
        simp [stepFile, hv0, hn0]
        exact ⟨_, List.mem_cons_self _ _, (relpath, countOccs sp0.pat content),
          List.mem_append_right _ (List.mem_singleton_self _), rfl, hn0⟩
      · by_cases hv : sp.valid
        · have := ih res2 (replaceOccs sp.pat sp.repl buf) hlen2 ⟨sp0, h1, hv0, hn0⟩
          rcases this with ⟨r2, hr2, q2, hq2, hqp2⟩
          exact ⟨r2, by simp [stepFile, hv, List.mem_cons, hr2], q2, hq2, hqp2⟩
        · have := ih res2 buf hlen2 ⟨sp0, h1, hv0, hn0⟩
          rcases this with ⟨r2, hr2, q2, hq2, hqp2⟩
          exact ⟨r2, by simp [stepFile, hv, List.mem_cons, hr2], q2, hq2, hqp2⟩

theorem runSAR_reported_mono (repoName : String) (specs : List PatternSpec)
    (excluded : List String) (searchOnly : Bool) :
    ∀ (files : List SRFile) (res : List PatternResult) (p : String),
      reportedIn res p →
      reportedIn (runSAR repoName specs excluded searchOnly files res).1 p := by
  intro files
  induction files with
  | nil =>
    intro res p h
    simpa [runSAR] using h
  | cons f fs ih =>
    intro res p h
    by_cases hex : 0 < excluded.length ∧ pathJoin repoName f.relpath ∈ excluded
    · simpa [runSAR, hex] using ih res p h
    · cases hc : f.content with
      | none => simpa [runSAR, hex, hc] using ih res p h
      | some c =>
        have := ih ((stepFile f.relpath c specs res c).1) p
          (stepFile_reported_mono f.relpath c specs res c p h)
        simpa [runSAR, hex, hc] using this

theorem runSAR_reports (repoName : String) (specs : List PatternSpec)
    (excluded : List String) (searchOnly : Bool) :
    ∀ (files : List SRFile) (res : List PatternResult),
      specs.length ≤ res.length →
      ∀ (i : Nat) (d : SRFile), i < files.length →
      ¬(0 < excluded.length ∧ pathJoin repoName (files.getD i d).relpath ∈ excluded) →
      ∀ c, (files.getD i d).content = some c →
      (∃ sp ∈ specs, sp.valid = true ∧ 0 < countOccs sp.pat c) →
      reportedIn (runSAR repoName specs excluded searchOnly files res).1
        (files.getD i d).relpath := by
  intro files
  induction files with
  | nil => intro res _ i d hi; simp at hi
  | cons f fs ih =>
    intro res hlen i d hi hnex c hc hsp
    cases i with
    | zero =>
      simp only [List.getD_cons_zero] at hnex hc ⊢
      simp only [runSAR, hnex, if_false, hc]
      exact runSAR_reported_mono repoName specs excluded searchOnly fs _ f.relpath
        (stepFile_records f.relpath c specs res c hlen ⟨hsp.choose,
          hsp.choose_spec.1, hsp.choose_spec.2.1, hsp.choose_spec.2.2⟩)
    | succ i =>
      simp only [List.getD_cons_succ] at hnex hc ⊢
      have hi2 : i < fs.length := by simpa using Nat.lt_of_succ_lt_succ hi
      by_cases hex : 0 < excluded.length ∧ pathJoin repoName f.relpath ∈ excluded
      · simp only [runSAR, hex, if_true]
        exact ih res hlen i d hi2 hnex c hc hsp
      · cases hfc : f.content with
        | none =>
          simp only [runSAR, hex, if_false, hfc]
          exact ih res hlen i d hi2 hnex c hc hsp
        | some c0 =>
          simp only [runSAR, hex, if_false, hfc]
          have hlen2 : specs.length ≤ ((stepFile f.relpath c0 specs res c0).1).length := by
            rw [stepFile_length f.relpath c0 specs res c0 hlen]; exact hlen
          exact ih _ hlen2 i d hi2 hnex c hc hsp

theorem overwrittenFile_content_ne (repoName : String) (specs : List PatternSpec)
    (excluded : List String) (f : SRFile)
    (hne : (overwrittenFile repoName specs excluded f).content ≠ f.content) :
    ¬(0 < excluded.length ∧ pathJoin repoName f.relpath ∈ excluded) ∧
    ∃ c, f.content = some c ∧ finalBuffer specs c ≠ c := by
  by_cases hex : 0 < excluded.length ∧ pathJoin repoName f.relpath ∈ excluded
  · simp [overwrittenFile, hex] at hne
  · cases hc : f.content with
    | none => simp [overwrittenFile, hex, hc] at hne
    | some c =>
      by_cases hb : finalBuffer specs c = c
      · simp [overwrittenFile, hex, hc, hb] at hne
      · exact ⟨hex, c, rfl, hb⟩

/-- C4 (amended): if a file's final on-disk content after
`search_and_replace` differs from its original content, the file is
reported in the MatchReport (some pattern records a positive match
count for it).  The converse direction of the original claim fails: a
pattern whose replacement equals the matched text is reported without
changing the file. -/
theorem sar_changed_implies_reported (repoName : String) (files : List SRFile)
    (specs : List PatternSpec) (excluded : List String) (searchOnly : Bool)
    (i : Nat) (d : SRFile) (hi : i < files.length)
    (hne : ((search_and_replace repoName files specs excluded searchOnly).2.getD i d).content
        ≠ (files.getD i d).content) :
    reportedIn (search_and_replace repoName files specs excluded searchOnly).1
      ((files.getD i d).relpath) := by
  have hdisk := runSAR_disk repoName specs excluded searchOnly files
    (specs.map (fun _ => PatternResult.mk 0 [])) (by simp)
  have hmap : (files.map (expectedFileAfter repoName specs excluded searchOnly)).getD i d
      = expectedFileAfter repoName specs excluded searchOnly (files.getD i d) := by
    simp [List.getD_eq_getElem?_getD, List.getElem?_map, List.getElem?_eq_getElem hi]
  have hdisk2 : (search_and_replace repoName files specs excluded searchOnly).2
      = files.map (expectedFileAfter repoName specs excluded searchOnly) := hdisk
  rw [hdisk2, hmap] at hne
  by_cases hso : searchOnly = true
  · rw [hso] at hne
    simp [expectedFileAfter] at hne
  · have hso2 : searchOnly = false := by
      cases searchOnly
      · rfl
      · exact absurd rfl hso
    subst hso2
    have hef : expectedFileAfter repoName specs excluded false (files.getD i d)
        = overwrittenFile repoName specs excluded (files.getD i d) := by
      simp [expectedFileAfter]
    rw [hef] at hne
    rcases overwrittenFile_content_ne repoName specs excluded (files.getD i d) hne
      with ⟨hex, c, hc, hb⟩
    exact runSAR_reports repoName specs excluded false files _ (by simp)
      i d hi hex c hc (exists_match_of_finalBuffer_ne c specs hb)

/-- Witness for the amended C4: a file actually rewritten is reported. -/
theorem sar_changed_implies_reported_witness :
    reportedIn (search_and_replace "r" [SRFile.mk "f" (some ['a'])]
      [PatternSpec.mk ['a'] ['b'] true] [] false).1
      (([SRFile.mk "f" (some ['a'])].getD 0 (SRFile.mk "" none)).relpath) :=
  sar_changed_implies_reported "r" [SRFile.mk "f" (some ['a'])]
    [PatternSpec.mk ['a'] ['b'] true] [] false 0 (SRFile.mk "" none)
    (by decide) (by decide)

theorem stepFile_reported_source (relpath : String) (content : List Char) :
    ∀ (specs : List PatternSpec) (res : List PatternResult) (buf : List Char)
      (p : String),
      reportedIn (stepFile relpath content specs res buf).1 p →
      relpath = p ∨ reportedIn res p := by
  intro specs
  induction specs with
  | nil =>
    intro res buf p h
    right
    simpa [stepFile] using h
  | cons sp specs ih =>
    intro res buf p h
    cases res with
    | nil =>
      rcases h with ⟨r1, hr1, _⟩
      simp [stepFile] at hr1
    | cons r res2 =>
      by_cases hv : sp.valid
      · by_cases hn : 0 < countOccs sp.pat content
        · simp only [stepFile] at h
          rw [if_pos hv] at h
          simp only [hn, if_true, ite_true] at h
          rcases h with ⟨r1, hr1, q, hq, hqp⟩
          rcases List.mem_cons.mp hr1 with h1 | h1
          · subst h1
            rcases List.mem_append.mp hq with h2 | h2
            · exact Or.inr ⟨r, List.mem_cons_self r res2, q, h2, hqp⟩
            · left
              have : q = (relpath, countOccs sp.pat content) := List.mem_singleton.mp h2
              rw [this] at hqp
              exact hqp.1
          · rcases ih res2 (replaceOccs sp.pat sp.repl buf) p ⟨r1, h1, q, hq, hqp⟩ with
              h2 | h2
            · exact Or.inl h2
            · rcases h2 with ⟨r2, hr2, q2, hq2, hqp2⟩
              exact Or.inr ⟨r2, List.mem_cons_of_mem r hr2, q2, hq2, hqp2⟩
        · simp only [stepFile] at h
          rw [if_pos hv] at h
          simp only [hn, if_false, ite_false] at h
          rcases h with ⟨r1, hr1, q, hq, hqp⟩
          rcases List.mem_cons.mp hr1 with h1 | h1
          · exact Or.inr ⟨r, List.mem_cons_self r res2, q, h1 ▸ hq, hqp⟩
          · rcases ih res2 (replaceOccs sp.pat sp.repl buf) p ⟨r1, h1, q, hq, hqp⟩ with
              h2 | h2
            · exact Or.inl h2
            · rcases h2 with ⟨r2, hr2, q2, hq2, hqp2⟩
              exact Or.inr ⟨r2, List.mem_cons_of_mem r hr2, q2, hq2, hqp2⟩
      · simp only [stepFile] at h
        rw [if_neg (by simpa using hv)] at h
        rcases h with ⟨r1, hr1, q, hq, hqp⟩
        rcases List.mem_cons.mp hr1 with h1 | h1
        · exact Or.inr ⟨r, List.mem_cons_self r res2, q, h1 ▸ hq, hqp⟩
        · rcases ih res2 buf p ⟨r1, h1, q, hq, hqp⟩ with h2 | h2
          · exact Or.inl h2
          · rcases h2 with ⟨r2, hr2, q2, hq2, hqp2⟩
            exact Or.inr ⟨r2, List.mem_cons_of_mem r hr2, q2, hq2, hqp2⟩

theorem runSAR_not_reported (repoName : String) (specs : List PatternSpec)
    (excluded : List String) (searchOnly : Bool) (p : String)
    (hp : pathJoin repoName p ∈ excluded) :
    ∀ (files : List SRFile) (res : List PatternResult),
      ¬ reportedIn res p →
      ¬ reportedIn (runSAR repoName specs excluded searchOnly files res).1 p := by
  intro files
  induction files with
  | nil =>
    intro res h hcontra
    exact h (by simpa [runSAR] using hcontra)
  | cons f fs ih =>
    intro res h hcontra
    by_cases hex : 0 < excluded.length ∧ pathJoin repoName f.relpath ∈ excluded
    · rw [show (runSAR repoName specs excluded searchOnly (f :: fs) res).1
          = (runSAR repoName specs excluded searchOnly fs res).1 from by
        simp [runSAR, hex]] at hcontra
      exact ih res h hcontra
    · cases hc : f.content with
      | none =>
        rw [show (runSAR repoName specs excluded searchOnly (f :: fs) res).1
            = (runSAR repoName specs excluded searchOnly fs res).1 from by
          simp only [runSAR, hex, if_false, hc]] at hcontra
        exact ih res h hcontra
      | some c =>
        have hrel : f.relpath ≠ p := by
          intro hrp
          exact hex ⟨List.length_pos.mpr (List.ne_nil_of_mem hp), hrp ▸ hp⟩
        have hstep : ¬ reportedIn (stepFile f.relpath c specs res c).1 p := by
          intro hrep
          rcases stepFile_reported_source f.relpath c specs res c p hrep with h2 | h2
          · exact hrel h2
          · exact h h2
        have hrw : (runSAR repoName specs excluded searchOnly (f :: fs) res).1
            = (runSAR repoName specs excluded searchOnly fs
                (stepFile f.relpath c specs res c).1).1 := by
          simp only [runSAR, hex, if_false, hc]
        rw [hrw] at hcontra
        exact ih (stepFile f.relpath c specs res c).1 hstep hcontra

/-- C7: a file whose repository-relative path (prefixed with the
repository's top-level folder name) is listed in the exclusion list is
never recorded in any pattern's MatchReport entry and is never
rewritten on disk, whatever the patterns. -/
theorem sar_excluded_file_untouched (repoName : String) (files : List SRFile)
    (specs : List PatternSpec) (excluded : List String) (searchOnly : Bool)
    (p : String) (hp : pathJoin repoName p ∈ excluded) :
    ¬ reportedIn (search_and_replace repoName files specs excluded searchOnly).1 p ∧
    ∀ (i : Nat) (d : SRFile), i < files.length → (files.getD i d).relpath = p →
      (search_and_replace repoName files specs excluded searchOnly).2.getD i d
        = files.getD i d := by
  constructor
  · refine runSAR_not_reported repoName specs excluded searchOnly p hp files _ ?_
    rintro ⟨r, hr, q, hq, _⟩
    rcases List.mem_map.mp hr with ⟨sp, _, hsp⟩
    rw [← hsp] at hq
    simp at hq
  · intro i d hi hrel
    have hdisk : (search_and_replace repoName files specs excluded searchOnly).2
        = files.map (expectedFileAfter repoName specs excluded searchOnly) :=
      runSAR_disk repoName specs excluded searchOnly files
        (specs.map (fun _ => PatternResult.mk 0 [])) (by simp)
    have hmap : (files.map (expectedFileAfter repoName specs excluded searchOnly)).getD i d
        = expectedFileAfter repoName specs excluded searchOnly (files.getD i d) := by
      simp [List.getD_eq_getElem?_getD, List.getElem?_map, List.getElem?_eq_getElem hi]
    rw [hdisk, hmap]
    have hex : 0 < excluded.length ∧
        pathJoin repoName (files.getD i d).relpath ∈ excluded :=
      ⟨List.length_pos.mpr (List.ne_nil_of_mem hp), hrel ▸ hp⟩
    generalize hgen : files.getD i d = f0 at hex ⊢
    cases searchOnly with
    | true => simp [expectedFileAfter]
    | false => simp [expectedFileAfter, overwrittenFile, hex]

/-- Witness for C7: with `repo/f` excluded, a matching file `f` is
neither reported nor rewritten. -/
theorem sar_excluded_file_untouched_witness :
    ¬ reportedIn (search_and_replace "repo" [SRFile.mk "f" (some ['a'])]
        [PatternSpec.mk ['a'] ['b'] true] ["repo/f"] false).1 "f" ∧
    (search_and_replace "repo" [SRFile.mk "f" (some ['a'])]
        [PatternSpec.mk ['a'] ['b'] true] ["repo/f"] false).2.getD 0 (SRFile.mk "" none)
      = [SRFile.mk "f" (some ['a'])].getD 0 (SRFile.mk "" none) :=
  ⟨(sar_excluded_file_untouched "repo" [SRFile.mk "f" (some ['a'])]
      [PatternSpec.mk ['a'] ['b'] true] ["repo/f"] false "f" (by decide)).1,
   (sar_excluded_file_untouched "repo" [SRFile.mk "f" (some ['a'])]
      [PatternSpec.mk ['a'] ['b'] true] ["repo/f"] false "f" (by decide)).2
     0 (SRFile.mk "" none) (by decide) (by decide)⟩

/-- Counterexample to C4 as stated: with the pattern `a` replaced by the
identical text `a`, the file is reported (one match) yet its final
content equals its original content, so "differs iff reported" fails. -/
theorem sar_changed_iff_reported_counterexample :
    ¬ ((((search_and_replace "r" [SRFile.mk "f" (some ['a'])]
          [PatternSpec.mk ['a'] ['a'] true] [] false).2.getD 0 (SRFile.mk "" none)).content
        ≠ (SRFile.mk "f" (some ['a'])).content)
      ↔ reportedIn (search_and_replace "r" [SRFile.mk "f" (some ['a'])]
          [PatternSpec.mk ['a'] ['a'] true] [] false).1 "f") := by
  decide

theorem changeEvaluation_flags_le (mode : Mode) (env : RepoEnv) (f0 : Flags)
    (total : Nat) :
    ((changeEvaluation mode env f0 total).1.check_branch ≤ f0.check_branch) ∧
    ((changeEvaluation mode env f0 total).1.setup_identity ≤ f0.setup_identity) ∧
    ((changeEvaluation mode env f0 total).1.search_only ≤ f0.search_only) ∧
    ((changeEvaluation mode env f0 total).1.commit ≤ f0.commit) ∧
    ((changeEvaluation mode env f0 total).1.push ≤ f0.push) ∧
    ((changeEvaluation mode env f0 total).1.create_pull_request ≤ f0.create_pull_request) := by
  simp only [changeEvaluation, skipOrExit]
  split_ifs <;> simp [Bool.false_le]

/-- C9: across the processing of one repository, each of the six
pipeline flags is monotonically non-increasing: the flags at the end of
the loop body imply the flags derived from the mode — assignments only
ever disable a flag, never re-enable one. -/
theorem processRepo_flags_monotone (mode : Mode) (env : RepoEnv) :
    ((processRepo mode env).flags.check_branch ≤ (flagsOfMode mode).check_branch) ∧
    ((processRepo mode env).flags.setup_identity ≤ (flagsOfMode mode).setup_identity) ∧
    ((processRepo mode env).flags.search_only ≤ (flagsOfMode mode).search_only) ∧
    ((processRepo mode env).flags.commit ≤ (flagsOfMode mode).commit) ∧
    ((processRepo mode env).flags.push ≤ (flagsOfMode mode).push) ∧
    ((processRepo mode env).flags.create_pull_request ≤ (flagsOfMode mode).create_pull_request) := by
  simp only [processRepo]
  repeat' (first | split | split_ifs)
  all_goals dsimp only
  all_goals first
    | exact changeEvaluation_flags_le mode env (flagsOfMode mode) _
    | simp

theorem processRepo_eval_shape (mode : Mode) (env : RepoEnv) (res : List PatternResult)
    (hid : env.identitySetupOk = true) (hbr : env.branchCheckOk = true)
    (hres : env.searchResult = some res) (hne : res.isEmpty = false) :
    (processRepo mode env).flags
      = (changeEvaluation mode env (flagsOfMode mode)
          ((res.map (fun r => r.count)).sum)).1 ∧
    ((processRepo mode env).didCommit = false ∨
     (processRepo mode env).didCommit
       = (changeEvaluation mode env (flagsOfMode mode)
           ((res.map (fun r => r.count)).sum)).1.commit) := by
  unfold processRepo
  simp only [hid, hbr, hres, hne]
  simp only [Bool.true_eq_false, and_false, if_false, Bool.false_eq_true]
  repeat' split
  all_goals simp

theorem changeEvaluation_zero_clean_commit_false (env : RepoEnv) (f0 : Flags)
    (hmod : env.modifiedCount = 0) (hstg : env.stagedCount = 0) :
    (changeEvaluation Mode.prod env f0 0).1.commit = false := by
  unfold changeEvaluation get_files_count
  simp only [hmod, hstg]
  repeat' split
  all_goals simp_all

/-- C1 (amended): outside dev mode, for a repository whose scan yields a
total match count of zero and which has at least one untracked file but
no modified or staged files, the pipeline disables commit and does not
attempt one: the leftover-change check of src/main.py counts modified
plus staged files and never consults the untracked files. -/
theorem pipeline_zero_match_untracked_skips_commit (env : RepoEnv)
    (hid : env.identitySetupOk = true) (hbr : env.branchCheckOk = true)
    (res : List PatternResult) (hres : env.searchResult = some res)
    (hne : res.isEmpty = false)
    (htotal : (res.map (fun r => r.count)).sum = 0)
    (hmod : env.modifiedCount = 0) (hstg : env.stagedCount = 0)
    (_hunt : 0 < env.untrackedCount) :
    (processRepo Mode.prod env).didCommit = false ∧
    (processRepo Mode.prod env).flags.commit = false := by
  obtain ⟨hflags, hdid⟩ := processRepo_eval_shape Mode.prod env res hid hbr hres hne
  rw [htotal] at hflags hdid
  have hcf := changeEvaluation_zero_clean_commit_false env (flagsOfMode Mode.prod) hmod hstg
  constructor
  · rcases hdid with h | h
    · exact h
    · rw [h, hcf]
  · rw [hflags, hcf]

/-- Witness for the amended C1 at the concrete environment `envC1`. -/
theorem pipeline_zero_match_untracked_skips_commit_witness :
    (processRepo Mode.prod envC1).didCommit = false ∧
    (processRepo Mode.prod envC1).flags.commit = false :=
  pipeline_zero_match_untracked_skips_commit envC1 rfl rfl
    [PatternResult.mk 0 []] rfl rfl rfl rfl rfl (by decide)

/-- Counterexample to C1 as stated: in prod mode, with zero total
matches, one untracked file and no modified or staged files, the
pipeline does NOT attempt a commit — the leftover-change check counts
modified plus staged files, not untracked plus modified. -/
theorem pipeline_untracked_no_commit_counterexample :
    envC1.untrackedCount = 1 ∧ envC1.modifiedCount = 0 ∧ envC1.stagedCount = 0 ∧
    envC1.searchResult = some [PatternResult.mk 0 []] ∧
    (processRepo Mode.prod envC1).didCommit = false ∧
    (processRepo Mode.prod envC1).flags.commit = false := by
  decide

/-- C2: outside dev mode, for a repository with zero pattern matches,
zero leftover modified/staged files, a tracking branch that is not ahead
of its upstream, a configured pull request and an already-open pull
request, the pipeline disables commit, push and pull-request creation,
attempts none of the three actions, and advances to the next repository
without reporting an error. -/
theorem pipeline_idempotent_skip (env : RepoEnv)
    (hid : env.identitySetupOk = true) (hbr : env.branchCheckOk = true)
    (res : List PatternResult) (hres : env.searchResult = some res)
    (hne : res.isEmpty = false)
    (htotal : (res.map (fun r => r.count)).sum = 0)
    (hmod : env.modifiedCount = 0) (hstg : env.stagedCount = 0)
    (ht : env.hasTracking = true) (hpn : env.pushNeeded = false)
    (hpc : env.prConfigured = true) (hpe : env.prQueryErr = false)
    (hpo : env.prQueryOpen = true) :
    (processRepo Mode.prod env).flags.commit = false ∧
    (processRepo Mode.prod env).flags.push = false ∧
    (processRepo Mode.prod env).flags.create_pull_request = false ∧
    (processRepo Mode.prod env).outcome = RepoOutcome.nextRepo ∧
    (processRepo Mode.prod env).didCommit = false ∧
    (processRepo Mode.prod env).didPush = false ∧
    (processRepo Mode.prod env).didRaisePR = false := by
  simp [processRepo, changeEvaluation, get_files_count, skipOrExit, flagsOfMode,
    hid, hbr, hres, hne, htotal, hmod, hstg, ht, hpn, hpc, hpe, hpo]

/-- Witness for C2 at the concrete environment `envC2`. -/
theorem pipeline_idempotent_skip_witness :
    (processRepo Mode.prod envC2).flags.commit = false ∧
    (processRepo Mode.prod envC2).flags.push = false ∧
    (processRepo Mode.prod envC2).flags.create_pull_request = false ∧
    (processRepo Mode.prod envC2).outcome = RepoOutcome.nextRepo ∧
    (processRepo Mode.prod envC2).didCommit = false ∧
    (processRepo Mode.prod envC2).didPush = false ∧
    (processRepo Mode.prod envC2).didRaisePR = false :=
  pipeline_idempotent_skip envC2 rfl rfl [PatternResult.mk 0 []]
    rfl rfl rfl rfl rfl rfl rfl rfl rfl rfl

/-- C5: `needs_push` returns true exactly when the branch has a tracking
branch and the left-exclusive commit range from the tracking branch to
the local branch is non-empty; with no tracking branch it returns
false. -/
theorem needs_push_iff (repo : GitRepo) (branch_name : Option String) (b : GitHead)
    (hb : lookupBranch repo branch_name = some b) :
    (needs_push repo branch_name = some true ↔
      ∃ t, b.tracking = some t ∧ repo.rangeCommits t b.hname ≠ []) ∧
    (b.tracking = none → needs_push repo branch_name = some false) := by
  have hval : needs_push repo branch_name
      = (match b.tracking with
         | some tracking => some (!(repo.rangeCommits tracking b.hname).isEmpty)
         | none => some false) := by
    unfold needs_push
    rw [hb]
  cases htr : b.tracking with
  | none =>
    rw [htr] at hval
    have hval2 : needs_push repo branch_name = some false := hval
    refine ⟨?_, fun _ => hval2⟩
    rw [hval2]
    simp
  | some t =>
    rw [htr] at hval
    have hval2 : needs_push repo branch_name
        = some (!(repo.rangeCommits t b.hname).isEmpty) := hval
    constructor
    · rw [hval2]
      constructor
      · intro h
        refine ⟨t, rfl, fun hemp => ?_⟩
        rw [hemp] at h
        simp at h
      · rintro ⟨t2, ht2, hne2⟩
        have ht2e : t2 = t := (Option.some.inj ht2).symm
        subst ht2e
        cases hrange : repo.rangeCommits t2 b.hname with
        | nil => exact absurd hrange hne2
        | cons x xs => simp
    · intro hnone
      exact Option.noConfusion hnone

/-- Witness for C5: a branch one commit ahead of its tracking branch
needs a push. -/
theorem needs_push_iff_witness :
    needs_push repoC5 (some "feature") = some true :=
  ((needs_push_iff repoC5 (some "feature")
      (GitHead.mk "feature" (some "origin/feature")) (by decide)).1).mpr
    ⟨"origin/feature", rfl, by decide⟩

/-- C6 (code bug): with a GitHub provider and no `GITHUB_TOKEN` set,
`is_open_pull_requests` returns a bare boolean `False` instead of the
`(is_open, error)` pair its signature, docstring and the claim describe;
the caller's tuple unpacking in src/main.py would raise `TypeError` on
this value. -/
theorem is_open_pull_requests_github_missing_token_bare :
    is_open_pull_requests envC6 = PRQueryReturn.bare false := by
  decide

theorem attachScm_ok_of_scmAttachOk (cfg : ScmCfg) (obj : RepoObj)
    (h : scmAttachOk cfg = true) :
    ∃ obj1, attachScm cfg obj = Except.ok obj1 := by
  unfold scmAttachOk at h
  unfold attachScm
  cases hp : cfg.ptype with
  | none => rw [hp] at h; simp at h
  | some t0 =>
    rw [hp] at h
    simp only at h ⊢
    by_cases ha : (pyLower (pyStrip t0.data)).filter (fun c => !(c == ' '))
        = "azuredevops".data
    · rw [if_pos ha] at h ⊢
      cases hbu : cfg.baseUrl with
      | none => rw [hbu] at h; simp at h
      | some bu =>
        cases hpj : cfg.project with
        | none => rw [hbu, hpj] at h; simp at h
        | some pj => exact ⟨_, rfl⟩
    · rw [if_neg ha] at h ⊢
      by_cases hg : (pyLower (pyStrip t0.data)).filter (fun c => !(c == ' '))
          = "github".data
      · rw [if_pos hg] at h ⊢
        cases hdm : cfg.domain with
        | none => rw [hdm] at h; simp at h
        | some dm =>
          cases hoo : cfg.ownerOrOrg with
          | none => rw [hdm, hoo] at h; simp at h
          | some oo => exact ⟨_, rfl⟩
      · rw [if_neg hg]
        exact ⟨obj, rfl⟩

theorem loadOne_safe (e : TargetEntry) (hsafe : entrySafe e = true)
    (last : Option RepoObj) :
    ∃ last1, loadOne last e = Except.ok (expectedRepo e, last1) := by
  obtain ⟨rtype, name, scm, mat, ho⟩ := e
  cases rtype with
  | none => cases name <;> cases scm <;> exact ⟨last, rfl⟩
  | some t0 =>
    cases name with
    | none => cases scm <;> exact ⟨last, rfl⟩
    | some nm =>
      cases scm with
      | none => exact ⟨last, rfl⟩
      | some cfg =>
        simp only [entrySafe] at hsafe
        rw [Bool.and_eq_true] at hsafe
        have hts : pyLower (pyStrip t0.data) = "local".data ∨
            pyLower (pyStrip t0.data) = "remote".data := by
          simpa using hsafe.1
        simp only [loadOne, expectedRepo]
        rw [if_pos hts, if_pos hts]
        cases mat with
        | ok =>
          cases hat : attachScm cfg (RepoObj.mk nm none) with
          | ok obj1 => exact ⟨some obj1, by simp [hat, Except.toOption]⟩
          | error exc =>
            exact ⟨some (RepoObj.mk nm none), by simp [hat, Except.toOption]⟩
        | gitErr status alreadyExists =>
          by_cases h128 : status = 128 ∧ alreadyExists = true
          · obtain ⟨h1, h2⟩ := h128
            subst h1
            subst h2
            have hrec : ho = true ∧ scmAttachOk cfg = true := by
              simpa using hsafe.2
            obtain ⟨hho, hok⟩ := hrec
            subst hho
            obtain ⟨obj1, hat⟩ := attachScm_ok_of_scmAttachOk cfg (RepoObj.mk nm none) hok
            exact ⟨some obj1, by simp [hat, Except.toOption]⟩
          · exact ⟨last, by simp [h128]⟩
        | noSuchPath => exact ⟨last, rfl⟩
        | otherExc => exact ⟨last, rfl⟩

theorem loadRepos_safe : ∀ (l : List TargetEntry) (last : Option RepoObj),
    (∀ e ∈ l, entrySafe e = true) →
    loadRepos l last = Except.ok (l.filterMap expectedRepo) := by
  intro l
  induction l with
  | nil => intro last _; rfl
  | cons e es ih =>
    intro last h
    obtain ⟨last1, h1⟩ := loadOne_safe e (h e (List.mem_cons_self e es)) last
    simp only [loadRepos, h1]
    rw [ih last1 (fun x hx => h x (List.mem_cons_of_mem e hx))]
    cases hexp : expectedRepo e with
    | none => simp [List.filterMap_cons, hexp, Option.toList]
    | some o => simp [List.filterMap_cons, hexp, Option.toList]

/-- C10 (amended): for every input list whose entries stay clear of the
clone-'already exists' recovery path failing (and whose `type` keys,
when present, are `local` or `remote`), `load_target_repos` propagates
no exception, a repository whose materialisation fails contributes no
element of its own, loading continues with the remaining entries, and
the returned repositories appear in input order.  The unqualified claim
fails: an exception raised inside the recovery `except` handler — e.g.
a missing `scmProvider.type` key after a clone 'already exists' error —
propagates out of the function. -/
theorem load_target_repos_safe (repos : List TargetEntry)
    (h : ∀ e ∈ repos, entrySafe e = true) :
    load_target_repos repos = Except.ok (repos.filterMap expectedRepo) :=
  loadRepos_safe repos none h

/-- Witness for the amended C10: a materialised entry and a failed one
load to the single expected repository, in order, with no exception. -/
theorem load_target_repos_safe_witness :
    load_target_repos entriesC10w
      = Except.ok [RepoObj.mk "r1" (some (ScmAttached.github "github.com" "me"))] := by
  rw [load_target_repos_safe entriesC10w (by decide)]
  decide

/-- Counterexample to C10 as stated: a remote entry whose clone hits the
'already exists' git error and whose `scmProvider` lacks the `type` key
makes `load_target_repos` propagate a `KeyError` instead of returning a
list. -/
theorem load_target_repos_counterexample :
    load_target_repos [entryC10] = Except.error PyExc.keyError ∧
    (load_target_repos [entryC10]).isOk = false := by
  decide

end CodeMigration
